import Mathlib

/-!
Verification of the `logr` logging facade (logr.go).

The embedding is a direct translation of the Go source:

* Go strings are modelled as `List Char` (`Str`); the only slicing the code
  performs, `s[:len(s)-1]`, removes the final `'\n'` byte, which is a single
  character, so character lists and byte strings agree on everything stated here.
* Go's `map[string]interface{}` is modelled as the sequence of insertions
  performed on the map (`FieldSet`), with `mapGet` returning the value of the
  last insertion for a key — exactly the observable behaviour of a Go map under
  assignment.  Map equality in the claims is lookup-extensional (`mapGet`).
* `fmt.Sprintln(args...)` renders each operand with its default representation;
  the operands are therefore taken as already-rendered strings, and `sprintln`
  joins them with single spaces and appends a newline, as `Sprintln` does.
* The Go slice expression `s[:n]` panics when `n` is out of range; `goSlice`
  models it with `Option`, returning `none` on the panic.
* Backends (`InfoLogger` / `ErrorLogger` values) are opaque identifiers of type
  `β`; a call to `LogInfo`/`LogError` is recorded as a `Call` value.  Every
  method of the source is translated to a function returning its Go result
  together with the list of backend calls its body performs, so "this method
  calls the backend" is an observable statement.
* Go never mutates a receiver in this file — every method returns a freshly
  constructed struct — so in this pure embedding "the receiver's state is
  unchanged afterwards" holds by construction; the substantive content of the
  immutability claims (which data the derived emitter carries, and what it
  forwards) is what the theorems state.
-/

namespace Logr

/-- Go strings, as character lists. -/
abbrev Str := List Char

/-- A `map[string]α` value, recorded as its insertion sequence. -/
abbrev FieldSet (α : Type) := List (String × α)

variable {α β : Type}

/-- Models the Go map assignment `m[k] = v`. -/
def mapIns (m : FieldSet α) (k : String) (v : α) : FieldSet α :=
  m ++ [(k, v)]

/-- Models Go map lookup `m[k]`: the value of the last assignment to `k`,
`none` when `k` was never assigned. -/
def mapGet (m : FieldSet α) (k : String) : Option α :=
  (m.reverse.find? (fun p => p.1 == k)).map (fun p => p.2)

/-- One call received by a backend: either `LogInfo(level, fields, msg)` on the
`InfoLogger` identified by `logger`, or `LogError(fields, msg)` on the
`ErrorLogger` identified by `logger`.  `LogError` carries no level. -/
inductive Call (β α : Type) where
  | info (logger : β) (level : Int) (fields : FieldSet α) (msg : Str)
  | error (logger : β) (fields : FieldSet α) (msg : Str)
deriving DecidableEq

/-- The `Info` struct of logr.go: an `InfoLogger` reference, a verbosity level,
a field map and a message prefix (field `pfx` models the Go field `prefix`). -/
structure Info (β α : Type) where
  logger : β
  level : Int
  fields : FieldSet α
  pfx : Str
deriving DecidableEq

/-- `NewInfo(logger)`: the remaining fields take Go zero values
(level `0`, nil map, empty string). -/
def NewInfo (logger : β) : Info β α :=
  ⟨logger, 0, [], []⟩

/-- `fmt.Sprintln(args...)` on already-rendered operands: operands separated by
single spaces, with a newline appended. -/
def sprintln (args : List Str) : Str :=
  List.intercalate [' '] args ++ ['\n']

/-- The Go slice expression `s[:n]`: `none` models the run-time panic when
`n` is out of range. -/
def goSlice (s : Str) (n : Int) : Option Str :=
  if 0 ≤ n ∧ n ≤ (s.length : Int) then some (s.take n.toNat) else none

/-- `(*Info).Info(args...)`: `s := fmt.Sprintln(args...)`, then
`l.logger.LogInfo(l.level, l.fields, l.prefix + s[:len(s)-1])`.
The result is the list of backend calls made, `none` on panic. -/
def Info.Info (l : Logr.Info β α) (args : List Str) : Option (List (Call β α)) :=
  let s := sprintln args
  (goSlice s ((s.length : Int) - 1)).map
    (fun t => [Call.info l.logger l.level l.fields (l.pfx ++ t)])

/-- `(*Info).Infof(format, args...)`: `fmt.Sprintf` is the host formatter,
abstracted as `fmtF`; the body makes exactly the one recorded call. -/
def Info.Infof (fmtF : Str → List Str → Str) (l : Logr.Info β α)
    (format : Str) (args : List Str) : List (Call β α) :=
  [Call.info l.logger l.level l.fields (l.pfx ++ fmtF format args)]

/-- `(*Info).V(level)`: a fresh `Info` with the given level and the receiver's
logger, fields and prefix.  The second component is the list of backend calls
the body makes: its body is a single composite-literal return. -/
def Info.V (l : Logr.Info β α) (level : Int) : Logr.Info β α × List (Call β α) :=
  (⟨l.logger, level, l.fields, l.pfx⟩, [])

/-- `(*Info).WithFields(fields)`: builds a fresh map `f`, copies the receiver's
entries into it, then the supplied entries, and returns a fresh `Info` with
map `f` and the receiver's logger, level and prefix.  No backend calls. -/
def Info.WithFields (l : Logr.Info β α) (fields : FieldSet α) :
    Logr.Info β α × List (Call β α) :=
  let f := fields.foldl (fun m p => mapIns m p.1 p.2)
    (l.fields.foldl (fun m p => mapIns m p.1 p.2) ([] : FieldSet α))
  (⟨l.logger, l.level, f, l.pfx⟩, [])

/-- `(*Info).WithPrefix(prefix)` (named `WithPre` here): a fresh `Info` with
prefix `l.prefix + prefix` and the receiver's logger, fields and level.
No backend calls. -/
def Info.WithPre (l : Logr.Info β α) (p : Str) : Logr.Info β α × List (Call β α) :=
  (⟨l.logger, l.level, l.fields, l.pfx ++ p⟩, [])

/-- The `Log` struct of logr.go: an embedded `Info` plus an `ErrorLogger`
reference `err`. -/
structure Log (β α : Type) where
  info : Info β α
  err : β
deriving DecidableEq

/-- `New(info, err)`: embedded `Info` has the zero level, nil map and empty
prefix. -/
def New (b e : β) : Log β α :=
  ⟨⟨b, 0, [], []⟩, e⟩

/-- `(*Log).AsInfo()`: the embedded `Info`. -/
def Log.AsInfo (l : Log β α) : Info β α :=
  l.info

/-- `(*Log).Info(args...)`: delegates to the embedded `Info`. -/
def Log.Info (l : Log β α) (args : List Str) : Option (List (Call β α)) :=
  l.info.Info args

/-- `(*Log).Infof(format, args...)`: delegates to the embedded `Info`. -/
def Log.Infof (fmtF : Str → List Str → Str) (l : Log β α)
    (format : Str) (args : List Str) : List (Call β α) :=
  l.info.Infof fmtF format args

/-- `(*Log).Error(args...)`: `s := fmt.Sprintln(args...)`, then
`l.err.LogError(l.info.fields, l.info.prefix + s[:len(s)-1])`. -/
def Log.Error (l : Log β α) (args : List Str) : Option (List (Call β α)) :=
  let s := sprintln args
  (goSlice s ((s.length : Int) - 1)).map
    (fun t => [Call.error l.err l.info.fields (l.info.pfx ++ t)])

/-- `(*Log).Errorf(format, args...)`. -/
def Log.Errorf (fmtF : Str → List Str → Str) (l : Log β α)
    (format : Str) (args : List Str) : List (Call β α) :=
  [Call.error l.err l.info.fields (l.info.pfx ++ fmtF format args)]

/-- `(*Log).V(level)`: delegates to the embedded `Info`, returning an `Info`
(not a `Log`). -/
def Log.V (l : Log β α) (level : Int) : Logr.Info β α × List (Call β α) :=
  l.info.V level

/-- `(*Log).WithFields(fields)`: a fresh `Log` around the derived embedded
`Info`, same `err` reference. -/
def Log.WithFields (l : Log β α) (fields : FieldSet α) :
    Log β α × List (Call β α) :=
  (⟨(l.info.WithFields fields).1, l.err⟩, (l.info.WithFields fields).2)

/-- `(*Log).WithPrefix(prefix)`: a fresh `Log` around the derived embedded
`Info`, same `err` reference. -/
def Log.WithPre (l : Log β α) (p : Str) : Log β α × List (Call β α) :=
  (⟨(l.info.WithPre p).1, l.err⟩, (l.info.WithPre p).2)

/-- One derivation step on an `Info` emitter: `V`, `WithFields` or
`WithPrefix`. -/
inductive DerivOp (α : Type) where
  | vOp (level : Int)
  | fieldsOp (fields : FieldSet α)
  | preOp (p : Str)

/-- Apply one derivation step, collecting the backend calls it makes. -/
def applyOp (l : Logr.Info β α) : DerivOp α → Logr.Info β α × List (Call β α)
  | DerivOp.vOp n => l.V n
  | DerivOp.fieldsOp f => l.WithFields f
  | DerivOp.preOp p => l.WithPre p

/-- Apply a sequence of derivation steps, concatenating the backend calls
made along the way. -/
def applyOps (l : Logr.Info β α) : List (DerivOp α) → Logr.Info β α × List (Call β α)
  | [] => (l, [])
  | op :: rest =>
    let r := applyOp l op
    let r2 := applyOps r.1 rest
    (r2.1, r.2 ++ r2.2)

/-- Folding map insertions over an insertion sequence appends it. -/
lemma foldl_mapIns (L m : FieldSet α) :
    L.foldl (fun m p => mapIns m p.1 p.2) m = m ++ L := by
  induction L generalizing m with
  | nil => simp
  | cons p rest ih =>
    rw [List.foldl_cons, ih]
    simp [mapIns]

/-- The field map built by `WithFields` is the receiver's insertion sequence
followed by the supplied one. -/
lemma WithFields_fst_fields (l : Logr.Info β α) (A : FieldSet α) :
    (l.WithFields A).1.fields = l.fields ++ A := by
  simp [Info.WithFields, foldl_mapIns]

/-- Lookup in a concatenation of insertion sequences: the later one wins. -/
lemma mapGet_append (x y : FieldSet α) (k : String) :
    mapGet (x ++ y) k = (mapGet y k).or (mapGet x k) := by
  unfold mapGet
  rw [List.reverse_append, List.find?_append]
  cases h : y.reverse.find? (fun p => p.1 == k) <;> simp [h]

/-- The newline-stripping slice applied to a `Sprintln` result is always
in-bounds and returns the space-joined operands. -/
lemma goSlice_sprintln (args : List Str) :
    goSlice (sprintln args) (((sprintln args).length : Int) - 1)
      = some (List.intercalate [' '] args) := by
  have hlen : (sprintln args).length = (List.intercalate [' '] args).length + 1 := by
    simp [sprintln]
  have hcond : 0 ≤ ((sprintln args).length : Int) - 1 ∧
      ((sprintln args).length : Int) - 1 ≤ ((sprintln args).length : Int) := by
    omega
  unfold goSlice
  rw [if_pos hcond]
  have ht : (((sprintln args).length : Int) - 1).toNat
      = (List.intercalate [' '] args).length := by omega
  rw [ht]
  unfold sprintln
  rw [List.take_left]

/-- What `(*Info).Info` forwards: one `LogInfo` call, message prefix plus the
space-joined operands, newline stripped. -/
lemma Info_fwd (l : Logr.Info β α) (args : List Str) :
    l.Info args = some [Call.info l.logger l.level l.fields
      (l.pfx ++ List.intercalate [' '] args)] := by
  simp [Info.Info, goSlice_sprintln]

/-- What `(*Log).Error` forwards: one `LogError` call with the embedded
emitter's fields and prefix, newline stripped, no level. -/
lemma Error_fwd (l : Log β α) (args : List Str) :
    l.Error args = some [Call.error l.err l.info.fields
      (l.info.pfx ++ List.intercalate [' '] args)] := by
  simp [Log.Error, goSlice_sprintln]

/-- C1: `E.WithFields(A).WithFields(B)` yields an emitter whose field map is
E's fields merged with A merged with B, a later-supplied key winning on every
conflict (B over A over E's inherited fields); level, prefix and backend are
unchanged.  The receiver `E` itself is a value the operation never writes to
(every Go method here returns a fresh struct), so E's own FieldSet is
unchanged afterward by construction of the embedding. -/
theorem withFields_twice_merge (E : Logr.Info β α) (A B : FieldSet α) (k : String) :
    mapGet (((E.WithFields A).1.WithFields B).1.fields) k
      = (mapGet B k).or ((mapGet A k).or (mapGet E.fields k))
    ∧ ((E.WithFields A).1.WithFields B).1.level = E.level
    ∧ ((E.WithFields A).1.WithFields B).1.pfx = E.pfx
    ∧ ((E.WithFields A).1.WithFields B).1.logger = E.logger := by
  refine ⟨?_, rfl, rfl, rfl⟩
  rw [WithFields_fst_fields, WithFields_fst_fields, mapGet_append, mapGet_append]

/-- C2: `E.WithPrefix(P).WithPrefix(Q)` yields an emitter whose prefix is
E's prefix, then P, then Q; level, fields and backend are unchanged.  E itself
is never written to by the operation (pure embedding of a method returning a
fresh struct). -/
theorem withPre_twice_concat (E : Logr.Info β α) (P Q : Str) :
    ((E.WithPre P).1.WithPre Q).1.pfx = E.pfx ++ P ++ Q
    ∧ ((E.WithPre P).1.WithPre Q).1.level = E.level
    ∧ ((E.WithPre P).1.WithPre Q).1.fields = E.fields
    ∧ ((E.WithPre P).1.WithPre Q).1.logger = E.logger :=
  ⟨rfl, rfl, rfl, rfl⟩

/-- C3: `Info(args...)` makes exactly one `LogInfo` call on the backend,
passing the emitter's level and fields and the message prefix plus the
operands joined by single spaces with no trailing newline; in particular
`Info("a", "b")` on a prefix-free emitter forwards the message `"a b"`. -/
theorem info_forwards_single_call (b : β) (E : Logr.Info β α) (args : List Str) :
    E.Info args = some [Call.info E.logger E.level E.fields
      (E.pfx ++ List.intercalate [' '] args)]
    ∧ (NewInfo b : Logr.Info β α).Info [['a'], ['b']]
      = some [Call.info b 0 [] ['a', ' ', 'b']] := by
  refine ⟨Info_fwd E args, ?_⟩
  rw [Info_fwd]
  rfl

/-- C4: `Log.Error(args...)` calls `LogError` on the error backend with the
embedded emitter's current fields and its prefix plus the println-formatted
operands (trailing newline stripped); no verbosity level is passed (the call
shape `Call.error` has none), and the forwarded fields and prefix do not
depend on the level stored in the embedded emitter. -/
theorem error_forwards_level_free (g : Log β α) (L : Int) (args : List Str) :
    g.Error args = some [Call.error g.err g.info.fields
      (g.info.pfx ++ List.intercalate [' '] args)]
    ∧ Log.Error (⟨⟨g.info.logger, L, g.info.fields, g.info.pfx⟩, g.err⟩ : Log β α) args
      = g.Error args := by
  refine ⟨Error_fwd g args, ?_⟩
  rw [Error_fwd, Error_fwd]

/-- C5: each derivation changes only its designated component: `V` only the
level, `WithFields` only the field map, `WithPrefix` only the prefix (by
appending); logger, and all other components, are those of the receiver. -/
theorem deriv_frame (E : Logr.Info β α) (L : Int) (F : FieldSet α) (P : Str) :
    ((E.V L).1.level = L ∧ (E.V L).1.fields = E.fields ∧ (E.V L).1.pfx = E.pfx
      ∧ (E.V L).1.logger = E.logger)
    ∧ ((E.WithFields F).1.level = E.level ∧ (E.WithFields F).1.pfx = E.pfx
      ∧ (E.WithFields F).1.logger = E.logger)
    ∧ ((E.WithPre P).1.pfx = E.pfx ++ P ∧ (E.WithPre P).1.level = E.level
      ∧ (E.WithPre P).1.fields = E.fields ∧ (E.WithPre P).1.logger = E.logger) :=
  ⟨⟨rfl, rfl, rfl, rfl⟩, ⟨rfl, rfl, rfl⟩, ⟨rfl, rfl, rfl, rfl⟩⟩

/-- C6: `E.V(L1)` and `E.V(L2)` are independent emitters: logging through the
first forwards level L1, through the second level L2, and logging through E
itself still forwards E's own stored level, fields and prefix — derivation
left the receiver's observable behaviour unchanged. -/
theorem v_independent (E : Logr.Info β α) (L1 L2 : Int) (args : List Str) :
    (E.V L1).1.Info args = some [Call.info E.logger L1 E.fields
      (E.pfx ++ List.intercalate [' '] args)]
    ∧ (E.V L2).1.Info args = some [Call.info E.logger L2 E.fields
      (E.pfx ++ List.intercalate [' '] args)]
    ∧ E.Info args = some [Call.info E.logger E.level E.fields
      (E.pfx ++ List.intercalate [' '] args)] := by
  refine ⟨?_, ?_, Info_fwd E args⟩ <;> rw [Info_fwd] <;> rfl

/-- C7: derivation operations make no backend calls: any sequence of `V`,
`WithFields`, `WithPrefix` steps on an `Info` emitter produces an empty call
trace, and the `Log` derivations `V`, `WithFields`, `WithPrefix` likewise
produce empty traces.  (The terminal operations produce exactly one call:
see the `Info`/`Error` forwarding theorems.) -/
theorem deriv_no_backend_calls (E : Logr.Info β α) (ops : List (DerivOp α))
    (g : Log β α) (L : Int) (F : FieldSet α) (P : Str) :
    (applyOps E ops).2 = []
    ∧ (g.V L).2 = [] ∧ (g.WithFields F).2 = [] ∧ (g.WithPre P).2 = [] := by
  refine ⟨?_, rfl, rfl, rfl⟩
  induction ops generalizing E with
  | nil => rfl
  | cons op rest ih =>
    cases op <;> simp [applyOps, applyOp, Info.V, Info.WithFields, Info.WithPre, ih]

/-- C8: `Log.V(level)` is exactly `V(level)` of the embedded `Info` emitter —
its result is an `Info` value (by its type), carrying no error backend. -/
theorem log_v_delegates (g : Log β α) (L : Int) :
    g.V L = g.info.V L
    ∧ (g.V L).1 = ⟨g.info.logger, L, g.info.fields, g.info.pfx⟩ :=
  ⟨rfl, rfl⟩

/-- C9: the newline-stripping slice in `Info` and in `Log.Error` is always
in-bounds — neither call ever reaches the panic case (`none`), even with zero
arguments — and `Info()` with no arguments forwards exactly the prefix. -/
theorem sprintln_slice_safe (E : Logr.Info β α) (g : Log β α) (args : List Str) :
    (E.Info args).isSome = true
    ∧ (g.Error args).isSome = true
    ∧ E.Info [] = some [Call.info E.logger E.level E.fields E.pfx] := by
  refine ⟨?_, ?_, ?_⟩
  · rw [Info_fwd]
    rfl
  · rw [Error_fwd]
    rfl
  · rw [Info_fwd]
    simp [List.intercalate]

/-- C10: `WithFields` with an empty map and `WithPrefix` with the empty string
are identities: the derived emitter equals the receiver (same logger, level,
field insertion sequence and prefix), so every subsequent `Info`/`Infof` call
forwards exactly what the receiver would forward. -/
theorem empty_deriv_identity (E : Logr.Info β α) (args : List Str)
    (fmtF : Str → List Str → Str) (format : Str) :
    (E.WithFields ([] : FieldSet α)).1 = E
    ∧ (E.WithPre ([] : Str)).1 = E
    ∧ (E.WithFields ([] : FieldSet α)).1.Info args = E.Info args
    ∧ (E.WithPre ([] : Str)).1.Info args = E.Info args
    ∧ Info.Infof fmtF (E.WithFields ([] : FieldSet α)).1 format args
      = Info.Infof fmtF E format args
    ∧ Info.Infof fmtF (E.WithPre ([] : Str)).1 format args
      = Info.Infof fmtF E format args := by
  have h1 : (E.WithFields ([] : FieldSet α)).1 = E := by
    cases E with
    | mk lg lv f p => simp [Info.WithFields, foldl_mapIns]
  have h2 : (E.WithPre ([] : Str)).1 = E := by
    cases E with
    | mk lg lv f p => simp [Info.WithPre]
  exact ⟨h1, h2, by rw [h1], by rw [h2], by rw [h1], by rw [h2]⟩

end Logr
